import Mathlib

/-
Verification of the compile-and-run pipeline of the inline-c crate
(`src/lib.rs`).  The program text, configuration names and values are
modelled as `List Char`; the process environment as an association list;
the `HashMap` of configuration variables as a function
`List Char → Option (List Char)`.  Filesystem and subprocess effects are
modelled by explicit oracles recorded in a `World` structure, and the
panics / propagated errors of `run` by an explicit `RunResult` sum.
-/

namespace InlineC

/-- Characters of a string literal, the basic coercion used throughout. -/
def chars (s : String) : List Char := s.data

/-- Models the ASCII whitespace class used by `str::split_ascii_whitespace`
(U+0020, U+0009, U+000A, U+000C, U+000D). -/
def isAsciiWs (c : Char) : Bool :=
  c = ' ' || c = '\t' || c = '\n' || c = '\x0c' || c = '\r'

/-- Models the whitespace recognised both by the regex class `\s` and by
`str::trim`, restricted to ASCII (the configuration names in play are
ASCII). -/
def isSpaceChar (c : Char) : Bool :=
  c = ' ' || c = '\t' || c = '\n' || c = '\x0b' || c = '\x0c' || c = '\r'

/-- Strip a literal pattern from the front of the input, returning the
remainder on success (helper for the literal parts of the two regexes and
for `str::replacen` / `str::replace`). -/
def stripLit : List Char → List Char → Option (List Char)
  | [], rest => some rest
  | _ :: _, [] => none
  | p :: ps, c :: cs => if c = p then stripLit ps cs else none

/-- Models `str::trim` (leading and trailing whitespace removed). -/
def trimL (l : List Char) : List Char :=
  ((l.dropWhile isSpaceChar).reverse.dropWhile isSpaceChar).reverse

/-- Decidable substring containment, modelling `str::contains`. -/
def containsSub (needle hay : List Char) : Bool := decide (needle <:+: hay)

/-- The literal head of the directive regex
`#inline_c_rs (?P<variable_name>[^:]+):\s*"(?P<variable_value>[^"]+)"\r?\n`. -/
def directiveMarker : List Char := ("#inline_c_rs ").data

/-- Consume one expected character from the front of the input. -/
def expectChar (c : Char) : List Char → Option (List Char)
  | [] => none
  | x :: xs => if x = c then some xs else none

/-- Consume the regex tail `\r?\n`: either a bare newline or a carriage
return followed by a newline. -/
def expectEol : List Char → Option (List Char)
  | '\n' :: r => some r
  | '\r' :: '\n' :: r => some r
  | _ => none

/-- Attempt to match the directive regex at the head of the input.  The
regex is deterministic: `[^:]+` is the maximal run up to the first colon,
`\s*` the maximal whitespace run, `[^"]+` the maximal run up to the first
double quote, and the line ends in `\r?\n`.  On success returns the two
capture groups and the text after the match. -/
def tryDirective (l : List Char) : Option (List Char × List Char × List Char) :=
  (stripLit directiveMarker l).bind fun r1 =>
  let name := r1.takeWhile (fun c => c != ':')
  if name.length = 0 then none else
  (expectChar ':' (r1.dropWhile (fun c => c != ':'))).bind fun r2 =>
  (expectChar '"' (r2.dropWhile isSpaceChar)).bind fun r4 =>
  let value := r4.takeWhile (fun c => c != '"')
  if value.length = 0 then none else
  (expectChar '"' (r4.dropWhile (fun c => c != '"'))).bind fun r5 =>
  (expectEol r5).map fun r6 => (name, value, r6)

/-- Fuelled scan of the program text for directive matches, modelling the
combination of `REGEX.captures_iter(program)` (first component: the list of
`(variable_name, variable_value)` capture pairs, in match order) and
`REGEX.replace_all(program, "")` (second component: the text with every
matched span deleted).  The regex engine finds the leftmost match, emits
it, and resumes after it; unmatched characters are kept.  The fuel is the
length of the input; every match consumes at least one character, so the
fuel never runs out. -/
def scanGo : Nat → List Char → List (List Char × List Char) × List Char
  | _, [] => ([], [])
  | 0, l => ([], l)
  | f + 1, c :: cs =>
    match tryDirective (c :: cs) with
    | some (n, v, rest) =>
      let p := scanGo f rest
      ((n, v) :: p.1, p.2)
    | none =>
      let p := scanGo f cs
      (p.1, c :: p.2)

/-- Directive capture pairs and stripped text of a program. -/
def scanDirectives (l : List Char) : List (List Char × List Char) × List Char :=
  scanGo l.length l

/-- The canonical text of a well-formed directive line
`#inline_c_rs <name>: "<value>"` followed by a newline. -/
def directiveLine (n v : List Char) : List Char :=
  directiveMarker ++ n ++ [':', ' ', '"'] ++ v ++ ['"', '\n']

/-- The configuration `HashMap<String, String>`, modelled extensionally as
a lookup function; `insertMap` is `HashMap::insert` (overwrite on same
key). -/
def ConfigMap : Type := List Char → Option (List Char)

/-- The empty map (`HashMap::new`). -/
def emptyMap : ConfigMap := fun _ => none

/-- `HashMap::insert`. -/
def insertMap (m : ConfigMap) (k v : List Char) : ConfigMap :=
  fun q => if q = k then some v else m q

/-- The fixed prefix stripped from seeding environment variables. -/
def envVarMarker : List Char := ("INLINE_C_RS_").data

/-- Models the iterator `env::vars().filter_map(..)` of
`collect_environment_variables`: keep entries whose name starts with the
prefix, with the prefix split off the key. -/
def prefixedEnvEntries (env : List (List Char × List Char)) :
    List (List Char × List Char) :=
  env.filterMap fun nv =>
    if envVarMarker.isPrefixOf nv.1 then
      some (nv.1.drop envVarMarker.length, nv.2) else none

/-- Models `collect_environment_variables` (`src/lib.rs:179`): the map is
seeded from prefixed environment entries, then every directive capture is
inserted (overwriting same-named entries, key trimmed), and the returned
program text is the input with every directive match removed. -/
def collect_environment_variables (env : List (List Char × List Char))
    (program : List Char) : List Char × ConfigMap :=
  let vars0 := (prefixedEnvEntries env).foldl
    (fun m nv => insertMap m nv.1 nv.2) emptyMap
  let sc := scanDirectives program
  let vars := sc.1.foldl
    (fun m nv => insertMap m (trimL nv.1) nv.2) vars0
  (sc.2, vars)

/-- Models `env::var` reading the ambient process environment (first
matching entry). -/
def envVarLookup (env : List (List Char × List Char)) (name : List Char) :
    Option (List Char) :=
  (env.find? (fun nv => nv.1 == name)).map (fun nv => nv.2)

/-- Models `str::split_ascii_whitespace` (tail-recursive accumulation of
the current token). -/
def splitGo (acc : List Char) : List Char → List (List Char)
  | [] => if acc.length = 0 then [] else [acc.reverse]
  | c :: cs =>
    if isAsciiWs c then
      if acc.length = 0 then splitGo [] cs else acc.reverse :: splitGo [] cs
    else splitGo (c :: acc) cs

/-- `str::split_ascii_whitespace` collected into a vector of owned
tokens. -/
def splitAsciiWs (l : List Char) : List (List Char) := splitGo [] l

/-- Models `get_env_flags` (`src/lib.rs:238`) literally:
`variables.get(env_name).map(..)` is an `Option`; `.ok_or_else(||
env::var(env_name))` moves the ambient lookup into the error slot; and
`.unwrap_or_default()` keeps the `Ok` value but replaces ANY error value —
including a present ambient variable — with the empty string. -/
def get_env_flags (vars : ConfigMap)
    (ambient : List Char → Option (List Char)) (env_name : List Char) :
    List (List Char) :=
  let step1 : Option (List Char) := vars env_name
  let step2 : Except (Option (List Char)) (List Char) :=
    match step1 with
    | some v => Except.ok v
    | none => Except.error (ambient env_name)
  let step3 : List Char :=
    match step2 with
    | Except.ok v => v
    | Except.error _ => []
  splitAsciiWs step3

/-- Preference combinator: first option when present, else the second. -/
def orO {α : Type} : Option α → Option α → Option α
  | some v, _ => some v
  | none, b => b

/-- The value of the LAST entry of `l` whose key (under `kf`) is `k`:
this is what a sequence of `HashMap::insert` calls leaves behind. -/
def lookupLastBy {α : Type} (kf : α → List Char) (vf : α → List Char)
    (l : List α) (k : List Char) : Option (List Char) :=
  l.foldl (fun acc a => if kf a = k then some (vf a) else acc) none

/-- The literal head of the include regex `#include "(.*)"`. -/
def includeMarker : List Char := ("#include \"").data

/-- Attempt to match the include regex `#include "(.*)"` at the head of
the input.  `.` does not match a newline and `(.*)` is greedy, so the
capture extends to the LAST double quote on the line; with no closing
quote on the line there is no match. -/
def tryInclude (l : List Char) : Option (List Char × List Char) :=
  match stripLit includeMarker l with
  | none => none
  | some r =>
    let line := r.takeWhile (fun c => c != '\n')
    let rev := line.reverse
    match rev.dropWhile (fun c => c != '"') with
    | [] => none
    | _ :: capRev =>
      some (capRev.reverse,
        (rev.takeWhile (fun c => c != '"')).reverse
          ++ r.dropWhile (fun c => c != '\n'))

/-- Fuelled scan for include matches, modelling
`regex.captures_iter(text).map(|c| c[1].to_string())`.  Every match
consumes at least the marker, so fuel equal to the input length never runs
out. -/
def scanIncludesGo : Nat → List Char → List (List Char)
  | _, [] => []
  | 0, _ => []
  | f + 1, c :: cs =>
    match tryInclude (c :: cs) with
    | some (cap, rest) => cap :: scanIncludesGo f rest
    | none => scanIncludesGo f cs

/-- The list of `#include "…"` capture groups of a text. -/
def scanIncludes (l : List Char) : List (List Char) :=
  scanIncludesGo l.length l

/-- Models `str::replacen(pat, "", 1)`: delete the first occurrence of the
pattern, scanning left to right. -/
def replacen1 (pat : List Char) : List Char → List Char
  | [] => []
  | c :: cs =>
    match stripLit pat (c :: cs) with
    | some rest => rest
    | none => c :: replacen1 pat cs

/-- Fuelled body of `str::replace(pat, "")`: delete every non-overlapping
occurrence, scanning left to right. -/
def replaceAllGo (pat : List Char) : Nat → List Char → List Char
  | _, [] => []
  | 0, l => l
  | f + 1, c :: cs =>
    match stripLit pat (c :: cs) with
    | some rest => replaceAllGo pat f rest
    | none => c :: replaceAllGo pat f cs

/-- Models `str::replace(pat, "")` (the pattern in use, `"-rpath,"`, is
non-empty, so fuel equal to the input length never runs out). -/
def replaceAll (pat l : List Char) : List Char := replaceAllGo pat l.length l

/-- Models `Path::new(base).join(s)` rendered through `Display`, for the
relative include paths in play. -/
def pathJoin (base s : List Char) : List Char := base ++ '/' :: s

/-- Models the `joined_filepaths` construction of `run`
(`src/lib.rs:136`): for every captured include path, the FIRST `-I` token
is fetched with `include_paths.first().unwrap()` — modelled as `head?`
inside the per-element closure, so the result is `none` (a panic) exactly
when at least one element forces the unwrap of an empty list. -/
def joinedFilepaths (include_paths : List (List Char))
    (filepaths : List (List Char)) : Option (List (List Char)) :=
  filepaths.mapM fun s =>
    (include_paths.head?).map fun i => pathJoin (replacen1 (("-I").data) i) s

/-- Models the `.dll` handling of `run` (`src/lib.rs:157`): when the
second `LDFLAGS` token ends in `".dll"`, the string `".lib"` is APPENDED
(`format!("{}.lib", dll_path)`). -/
def dllNormalize (s : List Char) : List Char :=
  if ((".dll").data).isSuffixOf s then s ++ ((".lib").data) else s

/-- Models `PathBuf::set_extension("obj")` for the paths in play (the
output path always carries the `.exe` suffix given to the temp-file
builder). -/
def setExtensionObj (l : List Char) : List Char :=
  if ((".exe").data).isSuffixOf l then
    l.take (l.length - 4) ++ ((".obj").data)
  else l ++ ((".obj").data)

/-- Models `command_add_output_file` (`src/lib.rs:216`): MSVC without
clang gets `-Fo<obj>` and `-Fe<exe>`; otherwise a plain `-o <exe>`. -/
def command_add_output_file (outName : List Char) (msvc clang : Bool) :
    List (List Char) :=
  if msvc && !clang then
    [("-Fo").data ++ setExtensionObj outName, ("-Fe").data ++ outName]
  else [("-o").data, outName]

/-- The language selector of `run`. -/
inductive Language where
  | C
  | Cxx

/-- Models `Language::to_string`, used as the temp-file suffix. -/
def Language.suffixStr : Language → List Char
  | .C => ("c").data
  | .Cxx => ("cpp").data

/-- The ambient state and effect oracles `run` interacts with: the process
environment, the detected host triple, the unique stems the temp-file
builder produces, and the success of the compiler probe and of the two
symlink-fixup passes. -/
structure World where
  envVars : List (List Char × List Char)
  host : List Char
  srcStem : List Char
  outStem : List Char
  compilerOk : Bool
  compilerIsClang : Bool
  fixupOk : Bool
  fixupInnerOk : Bool

/-- How a call to `run` ends: a returned `Ok(Assert)` carrying the
assembled command-line tail and the files-to-remove list, a propagated
`Err` (the `?` operator), or a panic (`panic!` / `expect` / `unwrap`). -/
inductive RunResult where
  | ok (args : List (List Char)) (filesToRemove : List (List Char))
  | err (msg : List Char)
  | panicked (msg : List Char)
  deriving DecidableEq

def msvcPanicMsg : List Char :=
  ("This crate only works with MSVC and Wasmer on Windows!").data

def unwrapNoneMsg : List Char :=
  ("called Option::unwrap on a None value").data

def noLinkPathMsg : List Char := ("no link path for .dll").data

def noDllMsg : List Char := ("no .dll").data

def compilerErrMsg : List Char := ("try_get_compiler failed").data

def fixupErrMsg : List Char := ("fixup_symlinks failed").data

def fixupInnerErrMsg : List Char := ("fixup_symlinks_inner failed").data

/-- The `-I`-prefixed tokens of the resolved `CFLAGS` group
(`src/lib.rs:123`). -/
def includeRoots (cflags : List (List Char)) : List (List Char) :=
  cflags.filter (fun t => (("-I").data).isPrefixOf t)

/-- Models the outcome of `run` (`src/lib.rs:76`) step by step: collect
the configuration and strip the program; panic if the host triple does not
contain "msvc"; probe the compiler (`?` propagates failure); resolve
`CFLAGS` and fix up symlinks under its `-I` roots (`?`); join the program
includes against the first `-I` root (the unwrap panics exactly when an
include exists but no root does); fix up the joined headers (`?`); resolve
the remaining flag groups; take the two leading `LDFLAGS` tokens (`expect`
panics naming the missing token); normalize the `.dll` name and assemble
the command tail and the files-to-remove list. -/
def runResultModel (lang : Language) (program0 : List Char) (w : World) :
    RunResult :=
  let pr := collect_environment_variables w.envVars program0
  let program := pr.1
  let vars := pr.2
  let srcName := w.srcStem ++ '.' :: lang.suffixStr
  let outName := w.outStem ++ ((".exe").data)
  if containsSub (("msvc").data) w.host = false then
    RunResult.panicked msvcPanicMsg
  else if w.compilerOk = false then RunResult.err compilerErrMsg
  else
    let cflags := get_env_flags vars (envVarLookup w.envVars) (("CFLAGS").data)
    let include_paths := includeRoots cflags
    if w.fixupOk = false then RunResult.err fixupErrMsg
    else
      match joinedFilepaths include_paths (scanIncludes program) with
      | none => RunResult.panicked unwrapNoneMsg
      | some _ =>
        if w.fixupInnerOk = false then RunResult.err fixupInnerErrMsg
        else
          let cppflags := get_env_flags vars (envVarLookup w.envVars)
            (("CPPFLAGS").data)
          let cxxflags := get_env_flags vars (envVarLookup w.envVars)
            (("CXXFLAGS").data)
          let ldflags := get_env_flags vars (envVarLookup w.envVars)
            (("LDFLAGS").data)
          match ldflags.get? 0 with
          | none => RunResult.panicked noLinkPathMsg
          | some lp =>
            let link_path := replaceAll (("-rpath,").data) lp
            match ldflags.get? 1 with
            | none => RunResult.panicked noDllMsg
            | some d =>
              let dll_path := dllNormalize d
              let args := cflags
                ++ command_add_output_file outName true w.compilerIsClang
                ++ [srcName]
                ++ [("/link").data, dll_path,
                    ("/LIBPATH:").data ++ link_path]
              RunResult.ok args [srcName, outName, setExtensionObj outName]

/-- The temporary files `run` has created on disk at the moment it ends:
the staged source file is created and written before the host check; the
output temp file is created right after it; every later exit point leaves
both in place. -/
def runCreatedModel (lang : Language) (w : World) : List (List Char) :=
  let srcName := w.srcStem ++ '.' :: lang.suffixStr
  if containsSub (("msvc").data) w.host = false then [srcName]
  else [srcName, w.outStem ++ ((".exe").data)]

/-- `run` in full: its outcome paired with the on-disk temp files at the
moment it ends. -/
def runModel (lang : Language) (program0 : List Char) (w : World) :
    RunResult × List (List Char) :=
  (runResultModel lang program0 w, runCreatedModel lang w)

/-- The flag group `run` resolves for a name: `get_env_flags` applied to
the collected configuration of a program under a world's environment. -/
def resolvedFlags (w : World) (program0 : List Char) (name : List Char) :
    List (List Char) :=
  get_env_flags (collect_environment_variables w.envVars program0).2
    (envVarLookup w.envVars) name

/-- Models the per-root candidate loop of `fixup_symlinks`
(`src/lib.rs:253`): push exactly the directory entries whose displayed
path ends with the character "h". -/
def phase1Candidates (entries : List (List Char)) : List (List Char) :=
  entries.foldl
    (fun acc path =>
      if (("h").data).isSuffixOf path then acc ++ [path] else acc)
    []

/-- Models the loop of `Assert::drop` (`src/lib.rs:34`) over the
files-to-remove list, threading the set of already-deleted files:
`fs::metadata(file).is_ok()` holds when the file existed initially and has
not been deleted by an earlier iteration; a failing `fs::remove_file` on
an existing file panics with a message naming the file. -/
def dropGo (present removeOk : List Char → Bool) :
    List (List Char) → List (List Char) →
      Except (List Char) (List (List Char))
  | removed, [] => Except.ok removed
  | removed, f :: fs =>
    if present f && !(decide (f ∈ removed)) then
      if removeOk f then dropGo present removeOk (f :: removed) fs
      else Except.error f
    else dropGo present removeOk removed fs

/-- Models `Assert::drop`: an `Except.ok` value lists the files actually
deleted; `Except.error f` is the panic naming the file that existed but
could not be removed. -/
def assertDrop (present removeOk : List Char → Bool)
    (files : List (List Char)) : Except (List Char) (List (List Char)) :=
  dropGo present removeOk [] files

/-- A host without MSVC, with every other oracle benign. -/
def linuxWorld : World :=
  { envVars := []
  , host := ("x86_64-unknown-linux-gnu").data
  , srcStem := ("inline-c-rs-src").data
  , outStem := ("inline-c-rs-out").data
  , compilerOk := true
  , compilerIsClang := false
  , fixupOk := true
  , fixupInnerOk := true }

/-- An MSVC host with an empty environment. -/
def msvcWorld : World := { linuxWorld with host := ("x86_64-pc-windows-msvc").data }

/-- An MSVC host with a two-token `LDFLAGS` naming a `.dll`. -/
def msvcLdWorld : World :=
  { msvcWorld with
    envVars := [(("INLINE_C_RS_LDFLAGS").data, ("/tmp/lib foo.dll").data)] }

/-- An MSVC host with a one-token `LDFLAGS`. -/
def msvcLd1World : World :=
  { msvcWorld with
    envVars := [(("INLINE_C_RS_LDFLAGS").data, ("/tmp/lib").data)] }

/-- The program of the C5 witness: one directive for FOO over an
environment seeding FOO and BAR. -/
def c5Program : List Char :=
  ("#inline_c_rs FOO: \"d1\"\nint main(void)\n").data

/-- The environment of the C5 witness. -/
def c5Env : List (List Char × List Char) :=
  [(("INLINE_C_RS_FOO").data, ("e1").data),
   (("INLINE_C_RS_BAR").data, ("e2").data),
   (("PATH").data, ("p").data)]

/-- Existence oracle of the C9 witness: only the source and executable
artifacts are on disk. -/
def presenceW : List Char → Bool :=
  fun f => f = ("a.c").data || f = ("b.exe").data

/-- Deletion oracle of the C9 witness in which every removal succeeds. -/
def removeOkAll : List Char → Bool := fun _ => true

/-- Deletion oracle of the C9 witness in which removing the executable
fails. -/
def removeOkNoExe : List Char → Bool := fun f => !(f = ("b.exe").data)

theorem stripLit_append (p r : List Char) : stripLit p (p ++ r) = some r := by
  induction p with
  | nil => rfl
  | cons c cs ih => simp [stripLit, ih]

theorem stripLit_length {p l r : List Char} (h : stripLit p l = some r) :
    r.length + p.length = l.length := by
  induction p generalizing l with
  | nil => simp [stripLit] at h; simp [h]
  | cons c cs ih =>
    cases l with
    | nil => simp [stripLit] at h
    | cons d ds =>
      simp only [stripLit] at h
      by_cases hd : d = c
      · simp [hd] at h
        have := ih h
        simp [List.length_cons]
        omega
      · simp [hd] at h

theorem expectChar_cons_self (c : Char) (l : List Char) :
    expectChar c (c :: l) = some l := by
  simp [expectChar]

theorem expectEol_lf (l : List Char) : expectEol ('\n' :: l) = some l := rfl

theorem length_dropWhile_le (p : Char → Bool) (l : List Char) :
    (l.dropWhile p).length ≤ l.length := by
  induction l with
  | nil => simp [List.dropWhile]
  | cons c cs ih =>
    simp only [List.dropWhile]
    by_cases h : p c
    · simp only [h]
      exact le_trans ih (by simp)
    · have h' : p c = false := by simpa using h
      simp only [h']
      exact le_refl _

theorem expectChar_length {c : Char} {l r : List Char}
    (h : expectChar c l = some r) : r.length < l.length := by
  cases l with
  | nil => simp [expectChar] at h
  | cons x xs =>
    simp only [expectChar] at h
    by_cases hx : x = c
    · simp [hx] at h; subst h; simp
    · simp [hx] at h

theorem expectEol_length {l r : List Char}
    (h : expectEol l = some r) : r.length < l.length := by
  unfold expectEol at h
  split at h
  next r' =>
    injection h with h'
    subst h'
    simp only [List.length_cons]
    omega
  next r' =>
    injection h with h'
    subst h'
    simp only [List.length_cons]
    omega
  next => exact absurd h (by simp)

theorem tryDirective_length {l n v r : List Char}
    (h : tryDirective l = some (n, v, r)) : r.length < l.length := by
  unfold tryDirective at h
  rw [Option.bind_eq_some] at h
  obtain ⟨r1, hs, h⟩ := h
  have hr1 : r1.length + directiveMarker.length = l.length := stripLit_length hs
  have hmark : 0 < directiveMarker.length := by decide
  simp only at h
  split at h
  · exact absurd h (by simp)
  · rw [Option.bind_eq_some] at h
    obtain ⟨r2, h2, h⟩ := h
    have l2 : r2.length < r1.length :=
      lt_of_lt_of_le (expectChar_length h2) (length_dropWhile_le _ _)
    rw [Option.bind_eq_some] at h
    obtain ⟨r4, h4, h⟩ := h
    have l4 : r4.length < r2.length :=
      lt_of_lt_of_le (expectChar_length h4) (length_dropWhile_le _ _)
    split at h
    · exact absurd h (by simp)
    · rw [Option.bind_eq_some] at h
      obtain ⟨r5, h5, h⟩ := h
      have l5 : r5.length < r4.length :=
        lt_of_lt_of_le (expectChar_length h5) (length_dropWhile_le _ _)
      rw [Option.map_eq_some'] at h
      obtain ⟨r6, h6, hr⟩ := h
      have l6 : r6.length < r5.length := expectEol_length h6
      have : r = r6 := by
        have := congrArg (fun t => t.2.2) hr
        simpa using this.symm
      subst this
      omega

theorem scanGo_fuel :
    ∀ (f g : Nat) (l : List Char), l.length ≤ f → l.length ≤ g →
      scanGo f l = scanGo g l := by
  intro f
  induction f with
  | zero =>
    intro g l hf _
    have : l = [] := by
      cases l with
      | nil => rfl
      | cons c cs => simp at hf
    subst this
    cases g with
    | zero => rfl
    | succ g => rfl
  | succ f ih =>
    intro g l hf hg
    cases l with
    | nil =>
      cases g with
      | zero => rfl
      | succ g => rfl
    | cons c cs =>
      cases g with
      | zero => simp at hg
      | succ g =>
        cases h : tryDirective (c :: cs) with
        | none =>
          simp only [scanGo, h]
          have hcs : cs.length ≤ f := by simp at hf; omega
          have hcs' : cs.length ≤ g := by simp at hg; omega
          rw [ih g cs hcs hcs']
        | some t =>
          obtain ⟨n, v, rest⟩ := t
          simp only [scanGo, h]
          have hl := tryDirective_length h
          simp only [List.length_cons] at hl hf hg
          rw [ih g rest (by omega) (by omega)]

theorem scanDirectives_pos {l n v rest : List Char}
    (h : tryDirective l = some (n, v, rest)) :
    scanDirectives l =
      ((n, v) :: (scanDirectives rest).1, (scanDirectives rest).2) := by
  cases l with
  | nil =>
    have hnone : tryDirective ([] : List Char) = none := by rfl
    rw [hnone] at h
    exact Option.noConfusion h
  | cons c cs =>
    have hl := tryDirective_length h
    simp only [List.length_cons] at hl
    simp only [scanDirectives, List.length_cons, scanGo, h]
    rw [scanGo_fuel cs.length rest.length rest (by omega) (le_refl _)]

theorem scanDirectives_neg {c : Char} {cs : List Char}
    (h : tryDirective (c :: cs) = none) :
    scanDirectives (c :: cs) =
      ((scanDirectives cs).1, c :: (scanDirectives cs).2) := by
  simp only [scanDirectives, List.length_cons, scanGo, h]

/-- If no directive matches anywhere, the scan keeps the text unchanged:
this is the replace-all-with-nothing pass acting as the identity. -/
theorem scanGo_no_captures :
    ∀ (f : Nat) (l : List Char), l.length ≤ f →
      (scanGo f l).1 = [] → (scanGo f l).2 = l := by
  intro f
  induction f with
  | zero =>
    intro l hf _
    cases l with
    | nil => rfl
    | cons c cs => simp at hf
  | succ f ih =>
    intro l hf hcap
    cases l with
    | nil => rfl
    | cons c cs =>
      simp only [scanGo] at hcap ⊢
      cases h : tryDirective (c :: cs) with
      | none =>
        rw [h] at hcap
        simp only at hcap ⊢
        have hcs : cs.length ≤ f := by simp at hf; omega
        rw [ih cs hcs hcap]
      | some t =>
        obtain ⟨n, v, rest⟩ := t
        rw [h] at hcap
        simp at hcap

theorem takeWhile_append_cons (p : Char → Bool) (l : List Char) (x : Char)
    (r : List Char) (hl : ∀ c ∈ l, p c = true) (hx : p x = false) :
    (l ++ x :: r).takeWhile p = l ∧ (l ++ x :: r).dropWhile p = x :: r := by
  induction l with
  | nil =>
    constructor
    · simp [List.takeWhile, hx]
    · simp [List.dropWhile, hx]
  | cons c cs ih =>
    have hc : p c = true := hl c (by simp)
    have ih' := ih (fun d hd => hl d (by simp [hd]))
    constructor
    · simp only [List.cons_append, List.takeWhile, hc]
      exact congrArg (List.cons c) ih'.1
    · simp only [List.cons_append, List.dropWhile, hc]
      exact ih'.2

/-- A directive line at the head of the input matches the directive regex,
the two captures are exactly the name and the quoted value, and the match
consumes exactly the directive line. -/
theorem tryDirective_head (n v rest : List Char)
    (hn : n ≠ []) (hnc : ':' ∉ n) (hv : v ≠ []) (hvq : '"' ∉ v) :
    tryDirective (directiveLine n v ++ rest) = some (n, v, rest) := by
  have hsplit : directiveLine n v ++ rest =
      directiveMarker ++ (n ++ ':' :: (' ' :: '"' :: (v ++ '"' :: '\n' :: rest))) := by
    simp [directiveLine, List.append_assoc]
  have hname := takeWhile_append_cons (fun c => c != ':') n ':'
    (' ' :: '"' :: (v ++ '"' :: '\n' :: rest))
    (fun c hc => by
      have : c ≠ ':' := fun he => hnc (he ▸ hc)
      simpa using this)
    (by simp)
  have hval := takeWhile_append_cons (fun c => c != '"') v '"'
    ('\n' :: rest)
    (fun c hc => by
      have : c ≠ '"' := fun he => hvq (he ▸ hc)
      simpa using this)
    (by simp)
  have hlen : ¬ n.length = 0 := by
    cases n with
    | nil => exact absurd rfl hn
    | cons a b => simp
  have hvlen : ¬ v.length = 0 := by
    cases v with
    | nil => exact absurd rfl hv
    | cons a b => simp
  have hdropSpace :
      (' ' :: '"' :: (v ++ '"' :: '\n' :: rest)).dropWhile isSpaceChar =
        '"' :: (v ++ '"' :: '\n' :: rest) := by
    simp [List.dropWhile, isSpaceChar]
  rw [hsplit]
  simp only [tryDirective, stripLit_append, Option.some_bind, hname.1, hname.2,
    hval.1, hval.2, hdropSpace, expectChar_cons_self, expectEol_lf,
    if_neg hlen, if_neg hvlen, Option.map_some']

theorem orO_some {α : Type} (v : α) (b : Option α) : orO (some v) b = some v := rfl

theorem orO_none {α : Type} (b : Option α) : orO none b = b := rfl

theorem foldl_lookup_acc {α : Type} (kf : α → List Char) (vf : α → List Char)
    (k : List Char) :
    ∀ (l : List α) (acc : Option (List Char)),
      l.foldl (fun a b => if kf b = k then some (vf b) else a) acc
        = orO (lookupLastBy kf vf l k) acc := by
  intro l
  induction l with
  | nil => intro acc; simp [lookupLastBy, orO_none]
  | cons a t ih =>
    intro acc
    simp only [lookupLastBy, List.foldl_cons]
    rw [ih, ih]
    cases h : lookupLastBy kf vf t k with
    | some v => simp [orO]
    | none =>
      simp only [orO_none]
      by_cases hk : kf a = k
      · rw [if_pos hk, if_pos hk, orO_some]
      · rw [if_neg hk, if_neg hk, orO_none]

/-- What a left fold of `HashMap::insert` over an entry list leaves in the
map: the value of the last entry with the looked-up key, else whatever the
initial map held. -/
theorem foldl_insert_lookup {α : Type} (kf : α → List Char) (vf : α → List Char) :
    ∀ (l : List α) (m0 : ConfigMap) (k : List Char),
      (l.foldl (fun m a => insertMap m (kf a) (vf a)) m0) k
        = orO (lookupLastBy kf vf l k) (m0 k) := by
  intro l
  induction l with
  | nil => intro m0 k; simp [lookupLastBy, orO_none]
  | cons a t ih =>
    intro m0 k
    simp only [List.foldl_cons]
    rw [ih]
    have hstep : lookupLastBy kf vf (a :: t) k
        = orO (lookupLastBy kf vf t k)
            (if kf a = k then some (vf a) else none) := by
      simp only [lookupLastBy, List.foldl_cons]
      exact foldl_lookup_acc kf vf k t _
    rw [hstep]
    by_cases hk : kf a = k
    · have hins : insertMap m0 (kf a) (vf a) k = some (vf a) := by
        simp [insertMap, hk.symm]
      rw [hins, if_pos hk]
      cases h : lookupLastBy kf vf t k with
      | none => simp [orO]
      | some v => simp [orO]
    · have hins : insertMap m0 (kf a) (vf a) k = m0 k := by
        have : ¬ k = kf a := fun he => hk he.symm
        simp [insertMap, this]
      rw [hins, if_neg hk]
      cases h : lookupLastBy kf vf t k with
      | none => simp [orO]
      | some v => simp [orO]

theorem foldl_insert_lookup_trim :
    ∀ (l : List (List Char × List Char)) (m0 : ConfigMap) (k : List Char),
      (l.foldl (fun m nv => insertMap m (trimL nv.1) nv.2) m0) k
        = orO (lookupLastBy (fun nv => trimL nv.1) (fun nv => nv.2) l k) (m0 k) :=
  fun l m0 k => foldl_insert_lookup (fun nv => trimL nv.1) (fun nv => nv.2) l m0 k

theorem foldl_insert_lookup_fst :
    ∀ (l : List (List Char × List Char)) (m0 : ConfigMap) (k : List Char),
      (l.foldl (fun m nv => insertMap m nv.1 nv.2) m0) k
        = orO (lookupLastBy (fun nv => nv.1) (fun nv => nv.2) l k) (m0 k) :=
  fun l m0 k => foldl_insert_lookup (fun nv => nv.1) (fun nv => nv.2) l m0 k

/-- The final configuration-map lookup of `collect_environment_variables`:
the last same-named directive wins; otherwise the last matching prefixed
environment entry; otherwise nothing. -/
theorem collect_lookup (env : List (List Char × List Char))
    (program : List Char) (k : List Char) :
    (collect_environment_variables env program).2 k
      = orO (lookupLastBy (fun nv => trimL nv.1) (fun nv => nv.2)
              (scanDirectives program).1 k)
          (orO (lookupLastBy (fun nv => nv.1) (fun nv => nv.2)
              (prefixedEnvEntries env) k)
            none) := by
  simp only [collect_environment_variables]
  rw [foldl_insert_lookup_trim]
  rw [foldl_insert_lookup_fst]
  rfl

theorem lookupLastBy_cons {α : Type} (kf : α → List Char) (vf : α → List Char)
    (a : α) (t : List α) (k : List Char) :
    lookupLastBy kf vf (a :: t) k
      = orO (lookupLastBy kf vf t k)
          (if kf a = k then some (vf a) else none) := by
  simp only [lookupLastBy, List.foldl_cons]
  exact foldl_lookup_acc kf vf k t _

theorem lookupLastBy_eq_none {α : Type} (kf : α → List Char)
    (vf : α → List Char) (l : List α) (k : List Char)
    (h : ∀ a ∈ l, kf a ≠ k) : lookupLastBy kf vf l k = none := by
  induction l with
  | nil => rfl
  | cons a t ih =>
    rw [lookupLastBy_cons]
    rw [ih (fun b hb => h b (by simp [hb]))]
    rw [if_neg (h a (by simp))]
    rfl

theorem phase1Candidates_acc (entries : List (List Char)) :
    ∀ (acc : List (List Char)) (x : List Char),
      x ∈ entries.foldl
          (fun acc path =>
            if (("h").data).isSuffixOf path then acc ++ [path] else acc) acc
        ↔ x ∈ acc ∨ (x ∈ entries ∧ (("h").data).isSuffixOf x = true) := by
  induction entries with
  | nil => intro acc x; simp
  | cons e t ih =>
    intro acc x
    simp only [List.foldl_cons]
    by_cases he : (("h").data).isSuffixOf e = true
    · rw [if_pos he]
      rw [ih]
      constructor
      · rintro (hx | hx)
        · rcases List.mem_append.mp hx with hx' | hx'
          · exact Or.inl hx'
          · simp at hx'
            subst hx'
            exact Or.inr ⟨by simp, he⟩
        · exact Or.inr ⟨by simp [hx.1], hx.2⟩
      · rintro (hx | ⟨hmem, hsuf⟩)
        · exact Or.inl (List.mem_append.mpr (Or.inl hx))
        · rcases List.mem_cons.mp hmem with he' | ht'
          · subst he'
            exact Or.inl (List.mem_append.mpr (Or.inr (by simp)))
          · exact Or.inr ⟨ht', hsuf⟩
    · rw [if_neg he]
      rw [ih]
      constructor
      · rintro (hx | hx)
        · exact Or.inl hx
        · exact Or.inr ⟨by simp [hx.1], hx.2⟩
      · rintro (hx | ⟨hmem, hsuf⟩)
        · exact Or.inl hx
        · rcases List.mem_cons.mp hmem with he' | ht'
          · subst he'
            exact absurd hsuf he
          · exact Or.inr ⟨ht', hsuf⟩

theorem dropGo_all_removable (present removeOk : List Char → Bool) :
    ∀ (fs removed : List (List Char)),
      (∀ f ∈ fs, present f = true → removeOk f = true) →
      ∃ rem, dropGo present removeOk removed fs = Except.ok rem
        ∧ (∀ f ∈ removed, f ∈ rem)
        ∧ (∀ f ∈ fs, present f = true → f ∈ rem)
        ∧ (∀ f ∈ rem, f ∈ removed ∨ (f ∈ fs ∧ present f = true)) := by
  intro fs
  induction fs with
  | nil =>
    intro removed _
    exact ⟨removed, rfl, fun f hf => hf, by simp, fun f hf => Or.inl hf⟩
  | cons f fs ih =>
    intro removed hok
    simp only [dropGo]
    by_cases hcond : (present f && !decide (f ∈ removed)) = true
    · rw [if_pos hcond]
      have hcond' : present f = true ∧ f ∉ removed := by simpa using hcond
      have hrem : removeOk f = true := hok f (by simp) hcond'.1
      rw [if_pos hrem]
      obtain ⟨rem, heq, hsub, hall, hsrc⟩ :=
        ih (f :: removed) (fun g hg hp => hok g (by simp [hg]) hp)
      refine ⟨rem, heq, fun g hg => hsub g (by simp [hg]), ?_, ?_⟩
      · intro g hg hp
        rcases List.mem_cons.mp hg with hg' | hg'
        · subst hg'
          exact hsub g (by simp)
        · exact hall g hg' hp
      · intro g hg
        rcases hsrc g hg with hg' | hg'
        · rcases List.mem_cons.mp hg' with hg2 | hg2
          · subst hg2
            exact Or.inr ⟨by simp, hcond'.1⟩
          · exact Or.inl hg2
        · exact Or.inr ⟨by simp [hg'.1], hg'.2⟩
    · rw [if_neg hcond]
      obtain ⟨rem, heq, hsub, hall, hsrc⟩ :=
        ih removed (fun g hg hp => hok g (by simp [hg]) hp)
      refine ⟨rem, heq, hsub, ?_, ?_⟩
      · intro g hg hp
        rcases List.mem_cons.mp hg with hg' | hg'
        · subst hg'
          have hmem : g ∈ removed := by
            by_contra hnm
            exact hcond (by simp [hp, hnm])
          exact hsub g hmem
        · exact hall g hg' hp
      · intro g hg
        rcases hsrc g hg with hg' | hg'
        · exact Or.inl hg'
        · exact Or.inr ⟨by simp [hg'.1], hg'.2⟩

theorem dropGo_first_failure (present removeOk : List Char → Bool)
    (f : List Char) (hpres : present f = true) (hfail : removeOk f = false) :
    ∀ (pre removed post : List (List Char)),
      (∀ g ∈ pre, present g = true → removeOk g = true) →
      (∀ g ∈ removed, removeOk g = true) →
      dropGo present removeOk removed (pre ++ f :: post) = Except.error f := by
  intro pre
  induction pre with
  | nil =>
    intro removed post _ hremok
    have hnm : f ∉ removed := by
      intro hmem
      have := hremok f hmem
      rw [this] at hfail
      exact Bool.noConfusion hfail
    simp only [List.nil_append, dropGo]
    rw [if_pos (by simp [hpres, hnm])]
    rw [if_neg (by simp [hfail])]
  | cons g pre ih =>
    intro removed post hpre hremok
    simp only [List.cons_append, dropGo]
    by_cases hcond : (present g && !decide (g ∈ removed)) = true
    · rw [if_pos hcond]
      have hcond' : present g = true ∧ g ∉ removed := by simpa using hcond
      have hrg : removeOk g = true := hpre g (by simp) hcond'.1
      rw [if_pos hrg]
      refine ih (g :: removed) post (fun x hx hp => hpre x (by simp [hx]) hp) ?_
      intro x hx
      rcases List.mem_cons.mp hx with h1 | h1
      · subst h1
        exact hrg
      · exact hremok x h1
    · rw [if_neg hcond]
      exact ih removed post (fun x hx hp => hpre x (by simp [hx]) hp) hremok

/-- C1: the claim's first case holds — a Configuration Map value is
whitespace-tokenized (first conjunct) — but its second case fails on the
code: with the name absent from the map and the ambient environment
carrying a value, `get_env_flags` returns the EMPTY group (second
conjunct) because `.ok_or_else(|| env::var(env_name)).unwrap_or_default()`
stores the ambient lookup in the `Err` slot and then discards it, while
the claim demands the tokenization of the ambient value (third conjunct,
nonempty).  The claim matches the evident intent of consulting
`env::var`; the code drops it, a code bug. -/
theorem c1_env_fallback_discarded :
    get_env_flags (insertMap emptyMap (("CFLAGS").data) (("-Ia -Ib").data))
        (fun _ => none) (("CFLAGS").data)
      = [("-Ia").data, ("-Ib").data]
    ∧ get_env_flags emptyMap
        (fun n => if n = ("CFLAGS").data then some (("-I/x").data) else none)
        (("CFLAGS").data)
      = []
    ∧ splitAsciiWs (("-I/x").data) = [("-I/x").data] := by
  refine ⟨by decide, by decide, by decide⟩

/-- C3 counterexample: on a host whose triple does not contain "msvc",
`run` does panic, but the moment the environment error is raised the
temporary source file has already been created and written (the
created-files component is the nonempty `[inline-c-rs-src.c]`), refuting
"no temporary source file ... exists when the environment error is
raised". -/
theorem c3_counterexample :
    runModel Language.C (("int main(void)\n").data) linuxWorld
      = (RunResult.panicked msvcPanicMsg, [("inline-c-rs-src.c").data])
    ∧ [("inline-c-rs-src.c").data] ≠ ([] : List (List Char)) := by
  refine ⟨by decide, by decide⟩

/-- C3 (amended): if the detected host toolchain is not MSVC, `run` fails
immediately and fatally (a panic, before the output temp file is
created), but the temporary source file has already been created and
written at that point: the created-file list at the moment of the panic
is exactly the staged source file. -/
theorem c3_panics_after_source_created (lang : Language)
    (program0 : List Char) (w : World)
    (h : containsSub (("msvc").data) w.host = false) :
    runModel lang program0 w
      = (RunResult.panicked msvcPanicMsg,
          [w.srcStem ++ '.' :: lang.suffixStr]) := by
  simp [runModel, runResultModel, runCreatedModel, h]

theorem c3_witness :
    containsSub (("msvc").data) linuxWorld.host = false
    ∧ runModel Language.C (("int main(void)\n").data) linuxWorld
      = (RunResult.panicked msvcPanicMsg,
          [linuxWorld.srcStem ++ '.' :: Language.C.suffixStr]) :=
  ⟨by decide,
   c3_panics_after_source_created Language.C
     (("int main(void)\n").data) linuxWorld (by decide)⟩

/-- C7: a program text in which the directive regex finds no match (zero
directive lines) is returned unchanged by the stripping pass. -/
theorem c7_no_directives_identity (p : List Char)
    (h : (scanDirectives p).1 = []) : (scanDirectives p).2 = p :=
  scanGo_no_captures p.length p (le_refl _) h

theorem c7_witness :
    (scanDirectives (("int main(void)\n").data)).1 = []
    ∧ (scanDirectives (("int main(void)\n").data)).2
      = ("int main(void)\n").data :=
  ⟨by decide,
   c7_no_directives_identity (("int main(void)\n").data) (by decide)⟩

/-- C8 counterexample: the candidate filter of `fixup_symlinks` keeps any
entry whose displayed path merely ends with the character "h", not the
suffix ".h": the extensionless entry "graph" is kept although it does not
end in ".h", refuting "no entry without that suffix". -/
theorem c8_counterexample :
    phase1Candidates [("foo.h").data, ("bar.c").data, ("graph").data]
      = [("foo.h").data, ("graph").data]
    ∧ ((".h").data).isSuffixOf (("graph").data) = false := by
  refine ⟨by decide, by decide⟩

/-- C8 (amended): for every include-path root, the phase-1 candidate list
contains exactly the directory entries whose displayed path ends in the
single character "h" (a superset of the ".h" convention). -/
theorem c8_header_filter (entries : List (List Char)) (x : List Char) :
    x ∈ phase1Candidates entries
      ↔ x ∈ entries ∧ (("h").data).isSuffixOf x = true := by
  unfold phase1Candidates
  rw [phase1Candidates_acc entries [] x]
  simp

theorem c8_witness :
    ("graph").data ∈ phase1Candidates [("foo.h").data, ("graph").data]
    ∧ ¬ ("bar.c").data ∈ phase1Candidates [("foo.h").data, ("graph").data] :=
  ⟨(c8_header_filter [("foo.h").data, ("graph").data] (("graph").data)).mpr
     ⟨by decide, by decide⟩,
   fun hmem =>
     by
       have h :=
         (c8_header_filter [("foo.h").data, ("graph").data]
           (("bar.c").data)).mp hmem
       exact absurd h.2 (by decide)⟩

/-- C2 counterexample: the code APPENDS ".lib" to a ".dll"-suffixed token
(`format!("{}.lib", dll_path)`), so "foo.dll" becomes "foo.dll.lib", not
the claim's suffix substitution "foo.lib". -/
theorem c2_counterexample :
    dllNormalize (("foo.dll").data) = ("foo.dll.lib").data
    ∧ ("foo.dll.lib").data ≠ ("foo.lib").data := by
  refine ⟨by decide, by decide⟩

/-- C2 (amended): when the second `LDFLAGS` token ends in ".dll", the
token passed to the linker after `/link` is that name with ".lib"
APPENDED ("foo.dll" becomes "foo.dll.lib"), and the library-search path is
the first token with "-rpath," deleted. -/
theorem c2_dll_lib_appended (lang : Language) (program0 : List Char)
    (w : World) (t0 t1 : List Char) (ts js : List (List Char))
    (hmsvc : containsSub (("msvc").data) w.host = true)
    (hcomp : w.compilerOk = true)
    (hfix : w.fixupOk = true)
    (hjoin : joinedFilepaths
        (includeRoots (resolvedFlags w program0 (("CFLAGS").data)))
        (scanIncludes (collect_environment_variables w.envVars program0).1)
      = some js)
    (hfix2 : w.fixupInnerOk = true)
    (hld : resolvedFlags w program0 (("LDFLAGS").data) = t0 :: t1 :: ts)
    (hdll : ((".dll").data).isSuffixOf t1 = true) :
    runResultModel lang program0 w
      = RunResult.ok
          (resolvedFlags w program0 (("CFLAGS").data)
            ++ command_add_output_file (w.outStem ++ ((".exe").data)) true
                w.compilerIsClang
            ++ [w.srcStem ++ '.' :: lang.suffixStr]
            ++ [("/link").data, t1 ++ ((".lib").data),
                ("/LIBPATH:").data ++ replaceAll (("-rpath,").data) t0])
          [w.srcStem ++ '.' :: lang.suffixStr, w.outStem ++ ((".exe").data),
            setExtensionObj (w.outStem ++ ((".exe").data))] := by
  simp only [resolvedFlags] at hjoin hld
  simp [runResultModel, resolvedFlags, hmsvc, hcomp, hfix, hfix2, hjoin, hld,
    dllNormalize, hdll, List.get?]

theorem c2_witness :
    runResultModel Language.C (("int main(void)\n").data) msvcLdWorld
      = RunResult.ok
          [("-Foinline-c-rs-out.obj").data, ("-Feinline-c-rs-out.exe").data,
           ("inline-c-rs-src.c").data,
           ("/link").data, ("foo.dll.lib").data, ("/LIBPATH:/tmp/lib").data]
          [("inline-c-rs-src.c").data, ("inline-c-rs-out.exe").data,
           ("inline-c-rs-out.obj").data] := by
  have h := c2_dll_lib_appended Language.C
    (("int main(void)\n").data) msvcLdWorld
    (("/tmp/lib").data) (("foo.dll").data) [] []
    (by decide) (by decide) (by decide) (by decide) (by decide) (by decide)
    (by decide)
  exact h.trans (by decide)

/-- C4 counterexample: with every `LDFLAGS` token missing on an otherwise
healthy MSVC world, `run` ends in a PANIC (`expect("no link path for
.dll")`) — an abrupt failure — not in a returned `Err` value as the claim
demands. -/
theorem c4_counterexample :
    runResultModel Language.C (("int main(void)\n").data) msvcWorld
      = RunResult.panicked noLinkPathMsg := by decide

/-- C4 (amended): if the link-path token (first `LDFLAGS` token) is
missing, `run` fails abruptly with the panic "no link path for .dll"; if
only the link-library token (second) is missing, with the panic "no
.dll".  The message names the missing token, but the failure is a panic,
not a propagated error value. -/
theorem c4_missing_ldflags_token_panics (lang : Language)
    (program0 : List Char) (w : World) (js : List (List Char))
    (hmsvc : containsSub (("msvc").data) w.host = true)
    (hcomp : w.compilerOk = true)
    (hfix : w.fixupOk = true)
    (hjoin : joinedFilepaths
        (includeRoots (resolvedFlags w program0 (("CFLAGS").data)))
        (scanIncludes (collect_environment_variables w.envVars program0).1)
      = some js)
    (hfix2 : w.fixupInnerOk = true) :
    (resolvedFlags w program0 (("LDFLAGS").data) = [] →
      runResultModel lang program0 w = RunResult.panicked noLinkPathMsg)
    ∧ (∀ t0 : List Char,
        resolvedFlags w program0 (("LDFLAGS").data) = [t0] →
        runResultModel lang program0 w = RunResult.panicked noDllMsg) := by
  constructor
  · intro hld
    simp only [resolvedFlags] at hjoin hld
    simp [runResultModel, hmsvc, hcomp, hfix, hfix2, hjoin, hld, List.get?]
  · intro t0 hld
    simp only [resolvedFlags] at hjoin hld
    simp [runResultModel, hmsvc, hcomp, hfix, hfix2, hjoin, hld, List.get?]

theorem c4_witness :
    runResultModel Language.C (("int main(void)\n").data) msvcWorld
      = RunResult.panicked noLinkPathMsg
    ∧ runResultModel Language.C (("int main(void)\n").data)
        msvcLd1World
      = RunResult.panicked noDllMsg := by
  have h1 := c4_missing_ldflags_token_panics Language.C
    (("int main(void)\n").data) msvcWorld []
    (by decide) (by decide) (by decide) (by decide) (by decide)
  have h2 := c4_missing_ldflags_token_panics Language.C
    (("int main(void)\n").data) msvcLd1World []
    (by decide) (by decide) (by decide) (by decide) (by decide)
  exact ⟨h1.1 (by decide), h2.2 (("/tmp/lib").data) (by decide)⟩

/-- C10: on an otherwise healthy MSVC world, if the stripped program text
contains at least one include match but the resolved `CFLAGS` group has no
"-I" token, `run` panics with the unwrap-on-None message (first conjunct);
and if the program text has no include match, that panic cannot be the
outcome (second conjunct). -/
theorem c10_include_without_root_panics (lang : Language)
    (program0 : List Char) (w : World)
    (hmsvc : containsSub (("msvc").data) w.host = true)
    (hcomp : w.compilerOk = true)
    (hfix : w.fixupOk = true) :
    (scanIncludes (collect_environment_variables w.envVars program0).1 ≠ [] →
      includeRoots (resolvedFlags w program0 (("CFLAGS").data)) = [] →
      runResultModel lang program0 w = RunResult.panicked unwrapNoneMsg)
    ∧ (scanIncludes (collect_environment_variables w.envVars program0).1 = [] →
        runResultModel lang program0 w ≠ RunResult.panicked unwrapNoneMsg) := by
  constructor
  · intro hinc hroots
    have hjoin : joinedFilepaths
        (includeRoots (resolvedFlags w program0 (("CFLAGS").data)))
        (scanIncludes (collect_environment_variables w.envVars program0).1)
      = none := by
      rw [hroots]
      cases hfp : scanIncludes
          (collect_environment_variables w.envVars program0).1 with
      | nil => exact absurd hfp hinc
      | cons a t => rfl
    simp only [resolvedFlags] at hjoin
    simp [runResultModel, hmsvc, hcomp, hfix, hjoin]
  · intro hinc
    have hjoin : joinedFilepaths
        (includeRoots (resolvedFlags w program0 (("CFLAGS").data)))
        (scanIncludes (collect_environment_variables w.envVars program0).1)
      = some [] := by
      rw [hinc]
      rfl
    simp only [resolvedFlags] at hjoin
    simp only [runResultModel]
    simp [hmsvc, hcomp, hfix, hjoin]
    by_cases hf2 : w.fixupInnerOk = false
    · simp [hf2]
    · simp [hf2]
      split
      · decide
      · split
        · decide
        · simp

theorem c10_witness :
    runResultModel Language.C
        (("#include \"foo.h\"\nint main(void)\n").data) msvcWorld
      = RunResult.panicked unwrapNoneMsg
    ∧ runResultModel Language.C (("int main(void)\n").data)
        msvcWorld
      ≠ RunResult.panicked unwrapNoneMsg := by
  have h1 := c10_include_without_root_panics Language.C
    (("#include \"foo.h\"\nint main(void)\n").data) msvcWorld
    (by decide) (by decide) (by decide)
  have h2 := c10_include_without_root_panics Language.C
    (("int main(void)\n").data) msvcWorld
    (by decide) (by decide) (by decide)
  exact ⟨h1.1 (by decide) (by decide), h2.2 (by decide)⟩

/-- C5: when a configuration name occurs among the program's directives
(as trimmed key), the collected map holds the directive's value (the last
such directive) regardless of any same-named prefixed environment entry
(first conjunct); a name not bound by any directive keeps its
prefixed-environment value unchanged in the map (second conjunct). -/
theorem c5_directive_overrides_env (env : List (List Char × List Char))
    (program : List Char) (k : List Char) :
    (∀ v, lookupLastBy (fun nv => trimL nv.1) (fun nv => nv.2)
        (scanDirectives program).1 k = some v →
      (collect_environment_variables env program).2 k = some v)
    ∧ ((∀ c ∈ (scanDirectives program).1, trimL c.1 ≠ k) →
      ∀ v, lookupLastBy (fun nv => nv.1) (fun nv => nv.2)
          (prefixedEnvEntries env) k = some v →
        (collect_environment_variables env program).2 k = some v) := by
  constructor
  · intro v hv
    rw [collect_lookup, hv, orO_some]
  · intro hnone v hv
    rw [collect_lookup,
      lookupLastBy_eq_none _ _ _ _ (fun a ha => hnone a ha), hv,
      orO_none, orO_some]

theorem c5_witness :
    (collect_environment_variables c5Env c5Program).2 (("FOO").data)
      = some (("d1").data)
    ∧ (collect_environment_variables c5Env c5Program).2 (("BAR").data)
      = some (("e2").data) :=
  ⟨(c5_directive_overrides_env c5Env c5Program (("FOO").data)).1
      (("d1").data) (by decide),
   (c5_directive_overrides_env c5Env c5Program (("BAR").data)).2
      (by decide) (("e2").data) (by decide)⟩

/-- C6 counterexample: the well-formed directive line
Da = `#inline_c_rs a: "v"\n` occurs verbatim in the program below (it is
its prefix, first conjunct), yet the stripped text — the program with both
regex matches removed — is exactly Da again (second conjunct): deleting
the inner match `#inline_c_rs b: "w"\n` splices the remaining characters
into a directive line, refuting "the directive line does not appear in the
stripped text".  Third conjunct: Da is the canonical well-formed directive
line for name "a" and value "v". -/
theorem c6_counterexample :
    ("#inline_c_rs a: \"v\"\n").data
      <:+: ("#inline_c_rs a: \"v\"\n#inline_c_rs a: \"v\"#inline_c_rs b: \"w\"\n\n").data
    ∧ (scanDirectives
        (("#inline_c_rs a: \"v\"\n#inline_c_rs a: \"v\"#inline_c_rs b: \"w\"\n\n").data)).2
      = ("#inline_c_rs a: \"v\"\n").data
    ∧ ("#inline_c_rs a: \"v\"\n").data
      = directiveLine (("a").data) (("v").data) := by
  refine ⟨by decide, by decide, by decide⟩

/-- C6 (amended): a well-formed directive line at a match site is matched
with captures exactly the name and the quoted value, and its span is
deleted from the text (the scan of `line ++ rest` is the capture plus the
scan of `rest`); when no later directive re-binds the same trimmed name,
the Configuration Map holds exactly the quoted value under the trimmed
name.  Absence of the directive line from the stripped text, however, is
not guaranteed (see the counterexample): only the matched spans are
removed. -/
theorem c6_directive_extraction (n v rest : List Char)
    (env : List (List Char × List Char))
    (hn : n ≠ []) (hnc : ':' ∉ n) (hv : v ≠ []) (hvq : '"' ∉ v) :
    scanDirectives (directiveLine n v ++ rest)
      = ((n, v) :: (scanDirectives rest).1, (scanDirectives rest).2)
    ∧ ((∀ c ∈ (scanDirectives rest).1, trimL c.1 ≠ trimL n) →
      (collect_environment_variables env (directiveLine n v ++ rest)).2
          (trimL n)
        = some v) := by
  have h1 := scanDirectives_pos (tryDirective_head n v rest hn hnc hv hvq)
  refine ⟨h1, fun hrest => ?_⟩
  have h1' : (scanDirectives (directiveLine n v ++ rest)).1
      = (n, v) :: (scanDirectives rest).1 := by rw [h1]
  rw [collect_lookup, h1', lookupLastBy_cons,
    lookupLastBy_eq_none _ _ _ _ (fun a ha => hrest a ha)]
  simp [orO]

theorem c6_witness :
    scanDirectives
        (directiveLine (("FOO").data) (("bar").data)
          ++ ("int main(void)\n").data)
      = ([((("FOO").data), (("bar").data))],
          ("int main(void)\n").data)
    ∧ (collect_environment_variables []
        (directiveLine (("FOO").data) (("bar").data)
          ++ ("int main(void)\n").data)).2 (("FOO").data)
      = some (("bar").data) := by
  have h := c6_directive_extraction (("FOO").data) (("bar").data)
    (("int main(void)\n").data) []
    (by decide) (by decide) (by decide) (by decide)
  exact ⟨h.1.trans (by decide), h.2 (by decide)⟩

/-- C9: `Assert::drop` over the artifact list: when every artifact that
exists on disk can be deleted, cleanup completes and deletes exactly the
existing artifacts, silently tolerating the missing ones (first
conjunct); and the first existing artifact whose deletion fails stops
cleanup fatally with a panic value naming exactly that path (second
conjunct). -/
theorem c9_drop_cleanup (present removeOk : List Char → Bool)
    (files : List (List Char)) :
    ((∀ f ∈ files, present f = true → removeOk f = true) →
      ∃ rem, assertDrop present removeOk files = Except.ok rem
        ∧ (∀ f ∈ files, present f = true → f ∈ rem)
        ∧ (∀ f ∈ rem, f ∈ files ∧ present f = true))
    ∧ (∀ (pre : List (List Char)) (f : List Char) (post : List (List Char)),
        files = pre ++ f :: post →
        (∀ g ∈ pre, present g = true → removeOk g = true) →
        present f = true → removeOk f = false →
        assertDrop present removeOk files = Except.error f) := by
  constructor
  · intro hok
    obtain ⟨rem, heq, _, hall, hsrc⟩ :=
      dropGo_all_removable present removeOk files [] hok
    refine ⟨rem, heq, hall, ?_⟩
    intro f hf
    rcases hsrc f hf with h | h
    · simp at h
    · exact h
  · intro pre f post hfiles hpre hp hf
    subst hfiles
    exact dropGo_first_failure present removeOk f hp hf pre [] post hpre
      (by simp)

theorem c9_witness :
    (∃ rem, assertDrop presenceW removeOkAll
        [("a.c").data, ("miss.obj").data, ("b.exe").data] = Except.ok rem
      ∧ (∀ f ∈ [("a.c").data, ("miss.obj").data, ("b.exe").data],
          presenceW f = true → f ∈ rem)
      ∧ (∀ f ∈ rem,
          f ∈ [("a.c").data, ("miss.obj").data, ("b.exe").data]
          ∧ presenceW f = true))
    ∧ assertDrop presenceW removeOkNoExe
        [("a.c").data, ("miss.obj").data, ("b.exe").data]
      = Except.error (("b.exe").data) :=
  ⟨(c9_drop_cleanup presenceW removeOkAll
      [("a.c").data, ("miss.obj").data, ("b.exe").data]).1 (by decide),
   (c9_drop_cleanup presenceW removeOkNoExe
      [("a.c").data, ("miss.obj").data, ("b.exe").data]).2
      [("a.c").data, ("miss.obj").data] (("b.exe").data) [] rfl
      (by decide) (by decide) (by decide)⟩

end InlineC
